import Mathlib

/-! The trip board coordinator (`src/presenter/presenter.js`)

A shallow embedding of the `Presenter` class: its private fields become the
fields of a record, every method becomes a function from the record to a
record, and a JavaScript exception becomes an explicit `Fault` next to the
state the method left behind (a throw does not undo earlier assignments).

Collaborators whose code lives in other modules are represented as follows.

* `filter`, `sortDateFrom`, `sortTime`, `sortPrice` (`utils/`) are parameters,
  collected in `Env`. The getter sorts the filtered array in place, so `Env`
  also says which filters hand back the array they were given and whether the
  store hands out its own array: in that case the sort reorders the store.
* `Array.prototype.sort` is a parameter as well (`ArraySort`), with what the
  language guarantees of it: a permutation for every comparator, and the
  stable ascending order for a consistent comparator.
* `Map` is an association list in insertion order (`Registry`).
* View classes, `PointPresenter` and `UiBlocker` are objects without code here:
  each is represented by the constructor arguments it got and by the calls it
  received.
* An awaited store operation is represented by how it settles. Notifications of
  the store reach the coordinator as separate `#handleModelEvent` steps.
-/

namespace BigTrip

/-! ## Enumerations of `const.js` -/

/-- Modelled from the spec: `const.js` is not part of the sources. The keys of
the `filter` table, "one of a fixed enumeration (e.g., Everything, Future,
Present, Past)". The presenter itself only names `FilterType.EVERYTHING`. -/
inductive FilterType where
  | everything
  | future
  | present
  | past
deriving DecidableEq, Repr

/-- The values `#currentSortType` can hold: the three the `points` getter
switches on, and any other value (`#handleSortTypeChange` stores whatever the
sort view reports). -/
inductive SortType where
  | day
  | time
  | price
  | other (tag : Nat)
deriving DecidableEq, Repr

/-- The four update types `#handleModelEvent` switches on. -/
inductive UpdateType where
  | patch
  | minor
  | major
  | init
deriving DecidableEq, Repr

/-- The three action types `#handleViewAction` switches on. -/
inductive UserAction where
  | updatePoint
  | addPoint
  | deletePoint
deriving DecidableEq, Repr

/-! ## Data -/

/-- An item. The presenter reads `id` (the registry key; `none` is JavaScript
`undefined`, which is what a draft that was never stored carries) and
`destination`. The remaining fields are the scheduling bounds and the price of
the data model; only the filter and comparator parameters look at them. -/
structure Point where
  id : Option Nat
  destination : Nat
  startAt : Int
  endAt : Int
  price : Int
deriving DecidableEq, Repr

/-- A destination: `#renderBoard` compares `id` and reads `name`. -/
structure Destination where
  id : Nat
  name : String
deriving DecidableEq, Repr

/-- An offer catalog entry, passed through to the handles untouched. -/
structure OffersByType where
  type : String
  offers : List Nat
deriving DecidableEq, Repr

/-- One entry of the `filter` table, as far as array identity goes: it either
hands back the very array it was given (`(points) => points`) or builds a new
array from it. -/
inductive FilterFn where
  | sameArray
  | newArray (f : List Point → List Point)

/-! ## `Array.prototype.sort` -/

/-- Insert `a` in front of the first element it does not have to follow. -/
def orderedInsert (cmp : Point → Point → Int) (a : Point) : List Point → List Point
  | [] => [a]
  | b :: l => if cmp a b ≤ 0 then a :: b :: l else b :: orderedInsert cmp a l

/-- The ascending arrangement of `l` in which elements that compare equal keep
their order: `cmp a b ≤ 0` keeps `a` in front of `b`. -/
def stableSort (cmp : Point → Point → Int) : List Point → List Point
  | [] => []
  | a :: l => orderedInsert cmp a (stableSort cmp l)

/-- A consistent comparator in the sense of ECMAScript (the conditions listed
for `Array.prototype.sort`): every value compares equal to itself, comparing
equal is symmetric and transitive, and so are comparing less and comparing
greater. That a call always gives the same number, and a number that is not
`NaN`, is part of the type. -/
structure ConsistentComparator (cmp : Point → Point → Int) : Prop where
  self_eq : ∀ a, cmp a a = 0
  eq_symm : ∀ a b, cmp a b = 0 → cmp b a = 0
  eq_chain : ∀ a b c, cmp a b = 0 → cmp b c = 0 → cmp a c = 0
  lt_chain : ∀ a b c, cmp a b < 0 → cmp b c < 0 → cmp a c < 0
  gt_chain : ∀ a b c, 0 < cmp a b → 0 < cmp b c → 0 < cmp a c

/-- The built-in `Array.prototype.sort` of the engine the code runs on:
`sort cmp l` is the contents of the array after `array.sort(cmp)` when they
were `l` before. The language fixes two things about it. Whatever the
comparator, the elements after the sort are the elements before it. For a
consistent comparator the order is ascending, elements that compare equal
keeping their order. For any other comparator the order is left to the engine,
and nothing is assumed about it here. -/
structure ArraySort where
  sort : (Point → Point → Int) → List Point → List Point
  perm : ∀ cmp l, (sort cmp l).Perm l
  sorted : ∀ cmp l, ConsistentComparator cmp → sort cmp l = stableSort cmp l

/-- The imported functions and the built-in the presenter is parameterised by. -/
structure Env where
  /-- The table `filter` of `utils/filter.js`. -/
  filter : FilterType → FilterFn
  /-- Comparator of `utils/sort.js`, used for `SortType.DAY`. -/
  sortDateFrom : Point → Point → Int
  /-- Comparator of `utils/sort.js`, used for `SortType.TIME`. -/
  sortTime : Point → Point → Int
  /-- Comparator of `utils/sort.js`, used for `SortType.PRICE`. -/
  sortPrice : Point → Point → Int
  /-- Whether `pointsModel.points` hands out the store's own array (`true`) or
  a copy of it (`false`). -/
  storeSharesArray : Bool
  /-- The engine's `Array.prototype.sort`. -/
  arraySort : ArraySort

/-- The contents of the array `filter[kind](events)` evaluates to. -/
def FilterFn.apply : FilterFn → List Point → List Point
  | .sameArray, events => events
  | .newArray f, events => f events

/-- The comparator the `points` getter sorts with, `none` for a sort kind that
matches no `case`. -/
def Env.comparator (env : Env) : SortType → Option (Point → Point → Int)
  | .day => some env.sortDateFrom
  | .time => some env.sortTime
  | .price => some env.sortPrice
  | .other _ => none

/-! ## Collaborator objects -/

/-- A call received by a `PointPresenter` (`point-presenter.js`). -/
inductive HandleCall where
  | init (point : Point) (allOffersByType : List OffersByType)
      (allDestinations : List Destination)
  | resetView
  | setSaving
  | setDeleting
  | setAborting
  | destroy
deriving DecidableEq, Repr

/-- A presentation handle: the calls it has received since `new PointPresenter`,
oldest first. -/
structure PointPresenter where
  calls : List HandleCall
deriving DecidableEq, Repr

/-- A call received by the creation form (`EventEdit`). -/
inductive EventEditCall where
  | updateElement (isSaving : Bool)
  | reset
deriving DecidableEq, Repr

/-- The creation form held in `#eventEditComponent`: its constructor arguments
and the calls it has received. -/
structure EventEdit where
  allDestinations : List Destination
  allOffersByType : List OffersByType
  calls : List EventEditCall
deriving DecidableEq, Repr

/-- A view object, with the constructor arguments the presenter gave it. -/
inductive View where
  | board (rows : List (Point × String))
  | eventsList
  | loading
  | sort (currentSortType : SortType)
  | listEmpty (filterType : FilterType)
  | eventEdit
deriving DecidableEq, Repr

/-- The two containers the presenter renders into. -/
inductive Container where
  | boardContainer
  | bodyContainer
deriving DecidableEq, Repr

/-- `RenderPosition` of `framework/render.js`; `beforeEnd` is the default. -/
inductive RenderPosition where
  | beforeEnd
  | afterBegin
deriving DecidableEq, Repr

/-- What the presenter does to objects it does not keep in a field of its own:
the calls on `#uiBlocker`, on the store, on `render` and `remove`, the
construction and destruction of handles, and the registration of the keydown
listener on `document`. -/
inductive Effect where
  | block
  | unblock
  | storeCall (action : UserAction) (updateType : UpdateType) (update : Point)
  | render (view : View) (container : Container) (place : RenderPosition)
  | remove (view : View)
  | newPointPresenter (id : Option Nat)
  | destroyPointPresenter (id : Option Nat)
  | addKeydownListener
  | removeKeydownListener
deriving DecidableEq, Repr

/-- How an awaited store operation settles. -/
inductive Outcome where
  | resolved
  | rejected
deriving DecidableEq, Repr

/-- A JavaScript exception raised by the presenter's own code: calling a method
or reading a property of `undefined`. -/
inductive Fault where
  | typeError (property : String)
deriving DecidableEq, Repr

/-! ## The registry (`#pointPresenter`, a `Map`) -/

/-- A `Map` from item id to handle, in insertion order. -/
structure Registry where
  entries : List (Option Nat × PointPresenter)
deriving DecidableEq, Repr

/-- The lookup of `Map.prototype.get` on the entries. -/
def lookupEntry (k : Option Nat) : List (Option Nat × PointPresenter) → Option PointPresenter
  | [] => none
  | (k', h) :: rest => if k' = k then some h else lookupEntry k rest

/-- Apply `f` to the handle stored under `k` (a method call that changes the
handle object in place). -/
def modifyEntry (k : Option Nat) (f : PointPresenter → PointPresenter) :
    List (Option Nat × PointPresenter) → List (Option Nat × PointPresenter)
  | [] => []
  | (k', h) :: rest =>
    if k' = k then (k', f h) :: rest else (k', h) :: modifyEntry k f rest

/-- The update of `Map.prototype.set` on the entries: an existing key keeps its
place and gets the new value, a new key is appended. -/
def setEntry (k : Option Nat) (v : PointPresenter) :
    List (Option Nat × PointPresenter) → List (Option Nat × PointPresenter)
  | [] => [(k, v)]
  | (k', h) :: rest =>
    if k' = k then (k', v) :: rest else (k', h) :: setEntry k v rest

/-- `new Map()`. -/
def Registry.empty : Registry := ⟨[]⟩

/-- `map.get(k)`; `none` is `undefined`. -/
def Registry.get (r : Registry) (k : Option Nat) : Option PointPresenter :=
  lookupEntry k r.entries

/-- `map.set(k, v)`. -/
def Registry.set (r : Registry) (k : Option Nat) (v : PointPresenter) : Registry :=
  ⟨setEntry k v r.entries⟩

/-- `map.get(k).method()` for a key that is present. -/
def Registry.modify (r : Registry) (k : Option Nat)
    (f : PointPresenter → PointPresenter) : Registry :=
  ⟨modifyEntry k f r.entries⟩

/-- The keys, in insertion order. -/
def Registry.keys (r : Registry) : List (Option Nat) :=
  r.entries.map Prod.fst

/-- Record a call on a handle. -/
def PointPresenter.call (h : PointPresenter) (c : HandleCall) : PointPresenter :=
  ⟨h.calls ++ [c]⟩

/-! ## The presenter -/

/-- The part of the points model the presenter reads. -/
structure PointsModel where
  points : List Point
  destinations : List Destination
  offersByType : List OffersByType
deriving DecidableEq, Repr

/-- The part of the filter model the presenter reads. -/
structure FilterModel where
  filter : FilterType
deriving DecidableEq, Repr

/-- The private fields of `Presenter`, and the effects it has had so far. -/
structure Presenter where
  /-- Rows of `#boardComponent`. -/
  boardComponent : List (Point × String)
  /-- The sort view, `none` for `null`. -/
  sortComponent : Option SortType
  /-- The creation form, `none` for `undefined`. -/
  eventEditComponent : Option EventEdit
  allDestinations : List Destination
  allOffersByType : List OffersByType
  pointsModel : PointsModel
  filterModel : FilterModel
  /-- The placeholder, `none` for `null`; it holds the filter kind it was built with. -/
  noTaskComponent : Option FilterType
  pointPresenter : Registry
  currentSortType : SortType
  filterType : FilterType
  isLoading : Bool
  log : List Effect
deriving DecidableEq, Repr

/-- The field initialisers of the class. -/
def Presenter.new (pointsModel : PointsModel) (filterModel : FilterModel) : Presenter :=
  { boardComponent := []
    sortComponent := none
    eventEditComponent := none
    allDestinations := []
    allOffersByType := []
    pointsModel := pointsModel
    filterModel := filterModel
    noTaskComponent := none
    pointPresenter := Registry.empty
    currentSortType := .day
    filterType := .everything
    isLoading := true
    log := [] }

/-- The state a method leaves behind and the exception it raised, if any. -/
structure Run where
  state : Presenter
  fault : Option Fault
deriving DecidableEq, Repr

/-- Append an effect to the log. -/
def Presenter.emit (s : Presenter) (e : Effect) : Presenter :=
  { s with log := s.log ++ [e] }

/-- `remove(component)` of `framework/render.js`: nothing happens for `null`. -/
def Presenter.removeView (s : Presenter) : Option View → Presenter
  | none => s
  | some v => s.emit (.remove v)

/-- The in-place sort of the `points` getter, seen from the store: when
`filter[kind]` handed back the array it was given and that array is the
store's own, the store's array is the one that got sorted. -/
def Presenter.sortedInPlace (env : Env) (s : Presenter) (sorted : List Point) : Presenter :=
  match env.filter s.filterType with
  | .sameArray =>
    if env.storeSharesArray then
      { s with pointsModel := { s.pointsModel with points := sorted } }
    else s
  | .newArray _ => s

/-- The getter `points`: the value it returns and the state it leaves. -/
def Presenter.points (env : Env) (s : Presenter) : List Point × Presenter :=
  let s := { s with filterType := s.filterModel.filter }
  let events := s.pointsModel.points
  let filteredPoints := (env.filter s.filterType).apply events
  match s.currentSortType with
  | .day =>
    let sorted := env.arraySort.sort env.sortDateFrom filteredPoints
    (sorted, s.sortedInPlace env sorted)
  | .time =>
    let sorted := env.arraySort.sort env.sortTime filteredPoints
    (sorted, s.sortedInPlace env sorted)
  | .price =>
    let sorted := env.arraySort.sort env.sortPrice filteredPoints
    (sorted, s.sortedInPlace env sorted)
  | .other _ => (filteredPoints, s)

/-- The rows `#renderBoard` maps the points to: each point with the name of its
destination. `find` yields `undefined` for a destination that is not in the
list, and reading `name` of it throws. -/
def boardRows (allDestinations : List Destination) : List Point → Option (List (Point × String))
  | [] => some []
  | point :: rest =>
    match allDestinations.find? (fun destination => destination.id = point.destination) with
    | none => none
    | some destination =>
      match boardRows allDestinations rest with
      | none => none
      | some rows => some ((point, destination.name) :: rows)

/-- `#renderBoard()`. -/
def Presenter.renderBoard (env : Env) (s : Presenter) : Run :=
  let s := s.removeView (some (.board s.boardComponent))
  let (points, s) := s.points env
  match boardRows s.allDestinations points with
  | none => ⟨s, some (.typeError "name")⟩
  | some rows =>
    let s := { s with boardComponent := rows }
    ⟨s.emit (.render (.board rows) .boardContainer .afterBegin), none⟩

/-- `#renderLoading()`. -/
def Presenter.renderLoading (s : Presenter) : Presenter :=
  s.emit (.render .loading .bodyContainer .afterBegin)

/-- `#renderSort()`. -/
def Presenter.renderSort (s : Presenter) : Presenter :=
  let s := { s with sortComponent := some s.currentSortType }
  s.emit (.render (.sort s.currentSortType) .bodyContainer .afterBegin)

/-- `#renderNoTaskComponent()`. -/
def Presenter.renderNoTaskComponent (s : Presenter) : Presenter :=
  let s := { s with noTaskComponent := some s.filterType }
  s.emit (.render (.listEmpty s.filterType) .bodyContainer .afterBegin)

/-- `#renderPoint(point)`. -/
def Presenter.renderPoint (s : Presenter) (point : Point) : Presenter :=
  let s := s.emit (.newPointPresenter point.id)
  let pointPresenter : PointPresenter :=
    ⟨[.init point s.allOffersByType s.allDestinations]⟩
  { s with pointPresenter := s.pointPresenter.set point.id pointPresenter }

/-- `#renderPoints(points)`. -/
def Presenter.renderPoints (s : Presenter) : List Point → Presenter
  | [] => s
  | point :: rest => (s.renderPoint point).renderPoints rest

/-- The `forEach` of `#clearBoard`: `destroy()` on every handle. -/
def destroyAll (s : Presenter) : List (Option Nat × PointPresenter) → Presenter
  | [] => s
  | (id, _) :: rest => destroyAll (s.emit (.destroyPointPresenter id)) rest

/-- `#clearBoard({resetSortType})`. -/
def Presenter.clearBoard (s : Presenter) (resetSortType : Bool) : Presenter :=
  let s := destroyAll s s.pointPresenter.entries
  let s := { s with pointPresenter := Registry.empty }
  let s := s.removeView (s.sortComponent.map View.sort)
  let s := s.removeView (some .loading)
  let s := match s.noTaskComponent with
    | some filterType => s.removeView (some (.listEmpty filterType))
    | none => s
  if resetSortType then { s with currentSortType := .day } else s

/-- `#renderContainer()`. -/
def Presenter.renderContainer (env : Env) (s : Presenter) : Run :=
  match s.renderBoard env with
  | ⟨s, some fault⟩ => ⟨s, some fault⟩
  | ⟨s, none⟩ =>
    if s.isLoading then
      let s := s.emit (.render .eventsList .bodyContainer .beforeEnd)
      ⟨s.renderLoading, none⟩
    else
      let (points, s) := s.points env
      let s :=
        if points.length = 0 then
          s.renderNoTaskComponent
        else
          let s := s.emit (.render .eventsList .bodyContainer .beforeEnd)
          let (points, s) := s.points env
          s.renderPoints points
      let s := s.renderSort
      ⟨s.emit (.render .eventsList .bodyContainer .beforeEnd), none⟩

/-- `init()`. -/
def Presenter.init (env : Env) (s : Presenter) : Run :=
  let s := { s with allDestinations := s.pointsModel.destinations }
  let s := { s with allOffersByType := s.pointsModel.offersByType }
  s.renderContainer env

/-- `#handleModelEvent(updateType, data)`. -/
def Presenter.handleModelEvent (env : Env) (updateType : UpdateType) (data : Point)
    (s : Presenter) : Run :=
  match updateType with
  | .patch =>
    match s.pointPresenter.get data.id with
    | none => ⟨s, some (.typeError "init")⟩
    | some _ =>
      let registry := s.pointPresenter.modify data.id
        (fun pointPresenter =>
          pointPresenter.call (.init data s.allOffersByType s.allDestinations))
      ⟨{ s with pointPresenter := registry }, none⟩
  | .minor => (s.clearBoard false).renderContainer env
  | .major => (s.clearBoard true).renderContainer env
  | .init =>
    let s := { s with isLoading := false }
    let s := s.removeView (some .loading)
    s.init env

/-- `#handleModeChange()`: `resetView()` on every handle. -/
def Presenter.handleModeChange (s : Presenter) : Presenter :=
  let entries := s.pointPresenter.entries.map (fun e => (e.1, e.2.call .resetView))
  { s with pointPresenter := ⟨entries⟩ }

/-- `#showNewEventForm()`. -/
def Presenter.showNewEventForm (s : Presenter) : Presenter :=
  let s := s.emit (.render .eventEdit .bodyContainer .afterBegin)
  let s := s.emit .addKeydownListener
  s.handleModeChange

/-- `#hideNewEventForm()`. -/
def Presenter.hideNewEventForm (s : Presenter) : Run :=
  let s := s.emit .removeKeydownListener
  match s.eventEditComponent with
  | none => ⟨s, some (.typeError "reset")⟩
  | some form =>
    let form := { form with calls := form.calls ++ [.reset] }
    let s := { s with eventEditComponent := some form }
    ⟨s.removeView (some .eventEdit), none⟩

/-- The click listener `#initNewEventButton` installs on the add button: build
the creation form and show it. -/
def Presenter.newEventClick (s : Presenter) : Presenter :=
  let form : EventEdit := ⟨s.allDestinations, s.allOffersByType, []⟩
  let s := { s with eventEditComponent := some form }
  s.showNewEventForm

/-- `this.#pointPresenter.get(id).method()`: throws when the registry has no
handle under `id`. -/
def Presenter.callHandle (s : Presenter) (id : Option Nat) (c : HandleCall)
    (property : String) : Run :=
  match s.pointPresenter.get id with
  | none => ⟨s, some (.typeError property)⟩
  | some _ =>
    ⟨{ s with pointPresenter := s.pointPresenter.modify id (fun h => h.call c) }, none⟩

/-- The `try { await store call } catch (err) { get(update.id).setAborting() }`
every branch of `#handleViewAction` ends with, followed by the `unblock()` after
the `switch`. The store call is represented by how it settles; the coordinator
is not changed while the call is pending. -/
def Presenter.awaitStore (s : Presenter) (actionType : UserAction)
    (updateType : UpdateType) (update : Point) (outcome : Outcome) : Run :=
  let s := s.emit (.storeCall actionType updateType update)
  match outcome with
  | .resolved => ⟨s.emit .unblock, none⟩
  | .rejected =>
    match s.callHandle update.id .setAborting "setAborting" with
    | ⟨s, some fault⟩ => ⟨s, some fault⟩
    | ⟨s, none⟩ => ⟨s.emit .unblock, none⟩

/-- `#handleViewAction({actionType, updateType, update})`, for a store
operation that settles with `outcome`. A `fault` in the result is the rejection
of the promise the async function returns. -/
def Presenter.handleViewAction (actionType : UserAction) (updateType : UpdateType)
    (update : Point) (outcome : Outcome) (s : Presenter) : Run :=
  let s := s.emit .block
  match actionType with
  | .updatePoint =>
    match s.callHandle update.id .setSaving "setSaving" with
    | ⟨s, some fault⟩ => ⟨s, some fault⟩
    | ⟨s, none⟩ => s.awaitStore .updatePoint updateType update outcome
  | .addPoint =>
    match s.eventEditComponent with
    | none => ⟨s, some (.typeError "updateElement")⟩
    | some form =>
      let form := { form with calls := form.calls ++ [.updateElement true] }
      let s := { s with eventEditComponent := some form }
      s.awaitStore .addPoint updateType update outcome
  | .deletePoint =>
    match s.callHandle update.id .setDeleting "setDeleting" with
    | ⟨s, some fault⟩ => ⟨s, some fault⟩
    | ⟨s, none⟩ => s.awaitStore .deletePoint updateType update outcome

/-! ## The view projection of the specification -/

/-- The view projection as the specification words it,
`visiblePoints(rawItems, filterKind, sortKind)`: apply the filter for
`filterKind` to `rawItems`, then sort the result with the comparator for
`sortKind`; for a sort kind that is not recognised, the filtered sequence is
returned as it is. -/
def visiblePoints (env : Env) (rawItems : List Point) (filterKind : FilterType)
    (sortKind : SortType) : List Point :=
  match env.comparator sortKind with
  | some cmp => env.arraySort.sort cmp ((env.filter filterKind).apply rawItems)
  | none => (env.filter filterKind).apply rawItems

/-- Two contents of the store's array that the `points` getter can move
between: the same contents, or, when `filter[kind]` hands its argument back, a
reordering of them. -/
def StoreEquiv (env : Env) (filterKind : FilterType) (c c' : List Point) : Prop :=
  c' = c ∨ (env.filter filterKind = .sameArray ∧ c'.Perm c)

/-- Two states the `points` getter cannot tell apart, up to the order of the
store's array: the same filter, sort kind and loading flag, and equivalent
store contents. -/
structure Agrees (env : Env) (s s' : Presenter) : Prop where
  filterModel : s'.filterModel = s.filterModel
  currentSortType : s'.currentSortType = s.currentSortType
  isLoading : s'.isLoading = s.isLoading
  allDestinations : s'.allDestinations = s.allDestinations
  store : StoreEquiv env s.filterModel.filter s.pointsModel.points s'.pointsModel.points

/-! ## Sample data -/

/-- An engine whose `Array.prototype.sort` arranges the array as `stableSort`
does, for every comparator. -/
def stableEngine : ArraySort where
  sort := stableSort
  perm := by
    intro cmp l
    induction l with
    | nil => exact List.Perm.refl _
    | cons a rest ih =>
      have hins : ∀ l : List Point, (orderedInsert cmp a l).Perm (a :: l) := by
        intro l
        induction l with
        | nil => exact List.Perm.refl _
        | cons b tl ihl =>
          by_cases h : cmp a b ≤ 0
          · simp [orderedInsert, h]
          · simp only [orderedInsert, h, if_false]
            exact (List.Perm.cons b ihl).trans (List.Perm.swap a b tl)
      exact (hins _).trans (List.Perm.cons a ih)
  sorted := fun _ _ _ => rfl

/-- A table of filters and comparators of the usual shape: Everything hands its
argument back, the other filters build a new array, and the comparators are
differences of a key. The store hands out its own array. -/
def sampleEnv : Env where
  arraySort := stableEngine
  filter
    | .everything => .sameArray
    | .future => .newArray (List.filter (fun point => decide (25 < point.startAt)))
    | .present => .newArray (List.filter (fun point =>
        decide (point.startAt ≤ 25) && decide (25 ≤ point.endAt)))
    | .past => .newArray (List.filter (fun point => decide (point.endAt < 25)))
  sortDateFrom a b := a.startAt - b.startAt
  sortTime a b := (b.endAt - b.startAt) - (a.endAt - a.startAt)
  sortPrice a b := a.price - b.price
  storeSharesArray := true

/-- A destination. -/
def geneva : Destination := ⟨1, "Geneva"⟩

/-- A stored item with price 50. -/
def pointA : Point := ⟨some 1, 1, 30, 40, 50⟩

/-- A stored item with price 10. -/
def pointB : Point := ⟨some 2, 1, 10, 25, 10⟩

/-- A stored item with price 30. -/
def pointC : Point := ⟨some 3, 1, 20, 22, 30⟩

/-- The payload of a creation form: it has no id yet. -/
def draftPoint : Point := ⟨none, 1, 50, 60, 70⟩

/-- An item that is in no store and no registry of the samples. -/
def stalePoint : Point := ⟨some 9, 1, 1, 2, 3⟩

/-- A store with three items. -/
def sampleStore : PointsModel := ⟨[pointA, pointB, pointC], [geneva], []⟩

/-- A store with no items. -/
def emptyStore : PointsModel := ⟨[], [geneva], []⟩

/-- The coordinator right after construction, the store already filled. -/
def loadingBoard : Presenter := Presenter.new sampleStore ⟨.everything⟩

/-- The coordinator after the Init notification. -/
def loadedBoard : Presenter := (loadingBoard.handleModelEvent sampleEnv .init pointA).state

/-- The coordinator after the shell called `init()` on a store that is already
filled, the Init notification still to come: destinations are known, the
loading flag is set. -/
def shellInitBoard : Presenter := (loadingBoard.init sampleEnv).state

/-- The coordinator right after construction on an empty store. -/
def emptyLoadingBoard : Presenter := Presenter.new emptyStore ⟨.everything⟩

/-- The coordinator on an empty store after the Init notification. -/
def emptyLoadedBoard : Presenter :=
  (emptyLoadingBoard.handleModelEvent sampleEnv .init pointA).state

/-- The coordinator after the Init notification, with Price chosen in the sort
view and the items back in the order the store delivered them. -/
def priceBoard : Presenter :=
  { loadedBoard with currentSortType := .price, pointsModel := sampleStore }

/-- The coordinator after the Init notification and a click on the add button:
the creation form is open. -/
def boardWithDraft : Presenter := loadedBoard.newEventClick

/-! ## Facts about the registry -/

theorem lookupEntry_eq_none_iff (k : Option Nat) (l : List (Option Nat × PointPresenter)) :
    lookupEntry k l = none ↔ k ∉ l.map Prod.fst := by
  induction l with
  | nil => simp [lookupEntry]
  | cons e rest ih =>
    obtain ⟨k', h⟩ := e
    by_cases hk : k' = k
    · simp [lookupEntry, hk]
    · have hk' : ¬ k = k' := fun h => hk h.symm
      simp [lookupEntry, hk, hk', ih]

theorem lookupEntry_modifyEntry_same (k : Option Nat) (f : PointPresenter → PointPresenter)
    (l : List (Option Nat × PointPresenter)) :
    lookupEntry k (modifyEntry k f l) = (lookupEntry k l).map f := by
  induction l with
  | nil => simp [lookupEntry, modifyEntry]
  | cons e rest ih =>
    obtain ⟨k', h⟩ := e
    by_cases hk : k' = k
    · simp [lookupEntry, modifyEntry, hk]
    · simp [lookupEntry, modifyEntry, hk, ih]

theorem lookupEntry_modifyEntry_other (k k' : Option Nat) (hne : k' ≠ k)
    (f : PointPresenter → PointPresenter) (l : List (Option Nat × PointPresenter)) :
    lookupEntry k' (modifyEntry k f l) = lookupEntry k' l := by
  induction l with
  | nil => simp [lookupEntry, modifyEntry]
  | cons e rest ih =>
    obtain ⟨k₀, h⟩ := e
    by_cases hk : k₀ = k
    · subst hk
      have : ¬ k₀ = k' := fun h => hne h.symm
      simp [lookupEntry, modifyEntry, this]
    · by_cases hk' : k₀ = k'
      · subst hk'
        simp [lookupEntry, modifyEntry, hk]
      · simp [lookupEntry, modifyEntry, hk, hk', ih]

theorem map_fst_modifyEntry (k : Option Nat) (f : PointPresenter → PointPresenter)
    (l : List (Option Nat × PointPresenter)) :
    (modifyEntry k f l).map Prod.fst = l.map Prod.fst := by
  induction l with
  | nil => simp [modifyEntry]
  | cons e rest ih =>
    obtain ⟨k', h⟩ := e
    by_cases hk : k' = k
    · simp [modifyEntry, hk]
    · simp [modifyEntry, hk, ih]

theorem mem_map_fst_setEntry (k k' : Option Nat) (v : PointPresenter)
    (l : List (Option Nat × PointPresenter)) :
    k ∈ (setEntry k' v l).map Prod.fst ↔ k = k' ∨ k ∈ l.map Prod.fst := by
  induction l with
  | nil => simp [setEntry]
  | cons e rest ih =>
    obtain ⟨k₀, h⟩ := e
    by_cases hk : k₀ = k'
    · subst hk
      simp [setEntry]
    · simp only [setEntry, hk, if_false, List.map_cons, List.mem_cons, ih]
      tauto

theorem Registry.get_eq_none_iff (r : Registry) (k : Option Nat) :
    r.get k = none ↔ k ∉ r.keys :=
  lookupEntry_eq_none_iff k r.entries

theorem Registry.get_isSome_of_mem (r : Registry) (k : Option Nat) (h : k ∈ r.keys) :
    ∃ handle, r.get k = some handle := by
  cases hg : r.get k with
  | none => exact absurd h ((r.get_eq_none_iff k).1 hg)
  | some handle => exact ⟨handle, rfl⟩

theorem Registry.get_modify_same (r : Registry) (k : Option Nat)
    (f : PointPresenter → PointPresenter) :
    (r.modify k f).get k = (r.get k).map f :=
  lookupEntry_modifyEntry_same k f r.entries

theorem Registry.get_modify_other (r : Registry) (k k' : Option Nat) (hne : k' ≠ k)
    (f : PointPresenter → PointPresenter) :
    (r.modify k f).get k' = r.get k' :=
  lookupEntry_modifyEntry_other k k' hne f r.entries

theorem Registry.keys_modify (r : Registry) (k : Option Nat)
    (f : PointPresenter → PointPresenter) :
    (r.modify k f).keys = r.keys :=
  map_fst_modifyEntry k f r.entries

theorem Registry.mem_keys_set (r : Registry) (k k' : Option Nat) (v : PointPresenter) :
    k ∈ (r.set k' v).keys ↔ k = k' ∨ k ∈ r.keys :=
  mem_map_fst_setEntry k k' v r.entries

theorem points_snd (env : Env) (s : Presenter) :
    (s.points env).2 = { s with
      filterType := s.filterModel.filter
      pointsModel := { s.pointsModel with points := (s.points env).2.pointsModel.points } } := by
  unfold Presenter.points Presenter.sortedInPlace
  cases s.currentSortType <;> dsimp only <;> (try split) <;> (try split) <;> rfl

theorem points_snd_currentSortType (env : Env) (s : Presenter) :
    (s.points env).2.currentSortType = s.currentSortType := by
  rw [points_snd]

theorem emit_currentSortType (s : Presenter) (e : Effect) :
    (s.emit e).currentSortType = s.currentSortType := rfl

theorem removeView_currentSortType (s : Presenter) (v : Option View) :
    (s.removeView v).currentSortType = s.currentSortType := by
  cases v <;> rfl

theorem renderPoints_currentSortType (points : List Point) (s : Presenter) :
    (s.renderPoints points).currentSortType = s.currentSortType := by
  induction points generalizing s with
  | nil => rfl
  | cons p rest ih => simp only [Presenter.renderPoints, ih]; rfl

theorem renderBoard_currentSortType (env : Env) (s : Presenter) :
    (s.renderBoard env).state.currentSortType = s.currentSortType := by
  unfold Presenter.renderBoard
  dsimp only
  split <;> simp [points_snd_currentSortType, emit_currentSortType, removeView_currentSortType]

theorem renderContainer_currentSortType (env : Env) (s : Presenter) :
    (s.renderContainer env).state.currentSortType = s.currentSortType := by
  have hb := renderBoard_currentSortType env s
  unfold Presenter.renderContainer
  split
  · next s1 f heq => rw [heq] at hb; exact hb
  · next s1 heq =>
    rw [heq] at hb
    dsimp only at hb ⊢
    split
    · simpa [Presenter.renderLoading, emit_currentSortType] using hb
    · dsimp only [Presenter.renderSort, Presenter.renderNoTaskComponent]
      split <;> simp [emit_currentSortType, renderPoints_currentSortType,
        points_snd_currentSortType, hb]

theorem destroyAll_eq (l : List (Option Nat × PointPresenter)) (s : Presenter) :
    destroyAll s l =
      { s with log := s.log ++ l.map (fun e => Effect.destroyPointPresenter e.1) } := by
  induction l generalizing s with
  | nil => simp [destroyAll]
  | cons e rest ih =>
    obtain ⟨k, h⟩ := e
    simp [destroyAll, ih, Presenter.emit]

theorem clearBoard_eq (s : Presenter) (resetSortType : Bool) :
    s.clearBoard resetSortType = { s with
      pointPresenter := Registry.empty
      currentSortType := if resetSortType then SortType.day else s.currentSortType
      log := (s.clearBoard resetSortType).log } := by
  unfold Presenter.clearBoard
  simp only [destroyAll_eq]
  obtain ⟨b, sc, ee, ad, ao, pm, fm, nt, pp, cs, ft, il, lg⟩ := s
  cases nt <;> cases sc <;> cases resetSortType <;> rfl

theorem clearBoard_currentSortType (s : Presenter) (resetSortType : Bool) :
    (s.clearBoard resetSortType).currentSortType =
      if resetSortType then SortType.day else s.currentSortType := by
  rw [clearBoard_eq]

/-- C1: after `#handleModelEvent` handles a Major notification the active sort
kind is Day whatever it was before, and after a Minor notification it is what
it was before; this holds for every coordinator state and payload, also when
the rebuild ends with an exception. -/
theorem handleModelEvent_sort_kind (env : Env) (data : Point) (s : Presenter) :
    (s.handleModelEvent env .major data).state.currentSortType = SortType.day ∧
    (s.handleModelEvent env .minor data).state.currentSortType = s.currentSortType := by
  constructor
  · simp [Presenter.handleModelEvent, renderContainer_currentSortType,
      clearBoard_currentSortType]
  · simp [Presenter.handleModelEvent, renderContainer_currentSortType,
      clearBoard_currentSortType]

/-! ## `#handleModelEvent`, Patch -/

/-- C6: a Patch notification whose item id is a key of the registry
re-initialises the handle stored under that id with the new payload and the
current offers and destinations, and changes nothing else: the other entries,
the key set, the sort kind, the filter kind, the loading flag and the effect
log (no handle constructed or destroyed) are as before. -/
theorem handleModelEvent_patch_frame (env : Env) (data : Point) (s : Presenter)
    (hkey : data.id ∈ s.pointPresenter.keys) :
    (s.handleModelEvent env .patch data).fault = none ∧
    (∃ handle, s.pointPresenter.get data.id = some handle ∧
      (s.handleModelEvent env .patch data).state.pointPresenter.get data.id =
        some ⟨handle.calls ++ [.init data s.allOffersByType s.allDestinations]⟩) ∧
    (∀ k, k ≠ data.id →
      (s.handleModelEvent env .patch data).state.pointPresenter.get k =
        s.pointPresenter.get k) ∧
    (s.handleModelEvent env .patch data).state.pointPresenter.keys = s.pointPresenter.keys ∧
    (s.handleModelEvent env .patch data).state.currentSortType = s.currentSortType ∧
    (s.handleModelEvent env .patch data).state.filterType = s.filterType ∧
    (s.handleModelEvent env .patch data).state.isLoading = s.isLoading ∧
    (s.handleModelEvent env .patch data).state.log = s.log ∧
    (s.handleModelEvent env .patch data).state =
      { s with pointPresenter :=
          (s.handleModelEvent env .patch data).state.pointPresenter } := by
  obtain ⟨handle, hget⟩ := s.pointPresenter.get_isSome_of_mem data.id hkey
  have hrun : s.handleModelEvent env .patch data =
      ⟨{ s with pointPresenter := (s.pointPresenter.modify data.id
          (fun h => h.call (.init data s.allOffersByType s.allDestinations))) }, none⟩ := by
    simp [Presenter.handleModelEvent, hget]
  rw [hrun]
  refine ⟨rfl, ⟨handle, hget, ?_⟩, ?_, ?_, rfl, rfl, rfl, rfl, rfl⟩
  · simp [Registry.get_modify_same, hget, PointPresenter.call]
  · intro k hk
    exact Registry.get_modify_other _ _ _ hk _
  · exact Registry.keys_modify _ _ _

theorem handleModelEvent_patch_frame_witness :
    pointA.id ∈ loadedBoard.pointPresenter.keys ∧
    (loadedBoard.handleModelEvent sampleEnv .patch { pointA with price := 99 }).fault = none ∧
    (loadedBoard.handleModelEvent sampleEnv .patch
      { pointA with price := 99 }).state.pointPresenter.keys = [some 2, some 3, some 1] :=
  ⟨by decide,
    (handleModelEvent_patch_frame sampleEnv { pointA with price := 99 } loadedBoard
      (by decide)).1,
    by decide⟩

/-- C7: a Patch notification whose item id is not a key of the registry makes
`#handleModelEvent` raise an error (the method call on the `undefined` the
lookup returns throws); nothing was changed before the throw. -/
theorem handleModelEvent_patch_stale (env : Env) (data : Point) (s : Presenter)
    (hkey : data.id ∉ s.pointPresenter.keys) :
    (s.handleModelEvent env .patch data).fault = some (.typeError "init") ∧
    (s.handleModelEvent env .patch data).state = s := by
  have hget := (s.pointPresenter.get_eq_none_iff data.id).2 hkey
  simp [Presenter.handleModelEvent, hget]

theorem handleModelEvent_patch_stale_witness :
    stalePoint.id ∉ loadedBoard.pointPresenter.keys ∧
    (loadedBoard.handleModelEvent sampleEnv .patch stalePoint).fault =
      some (.typeError "init") :=
  ⟨by decide, (handleModelEvent_patch_stale sampleEnv stalePoint loadedBoard (by decide)).1⟩

/-! ## `#handleViewAction` -/

theorem callHandle_of_get (s : Presenter) (id : Option Nat) (c : HandleCall)
    (property : String) (handle : PointPresenter) (h : s.pointPresenter.get id = some handle) :
    s.callHandle id c property =
      ⟨{ s with pointPresenter := s.pointPresenter.modify id (fun h => h.call c) }, none⟩ := by
  simp [Presenter.callHandle, h]

theorem callHandle_log (s : Presenter) (id : Option Nat) (c : HandleCall)
    (property : String) : (s.callHandle id c property).state.log = s.log := by
  unfold Presenter.callHandle
  split <;> rfl

theorem callHandle_eventEditComponent (s : Presenter) (id : Option Nat) (c : HandleCall)
    (property : String) :
    (s.callHandle id c property).state.eventEditComponent = s.eventEditComponent := by
  unfold Presenter.callHandle
  split <;> rfl

theorem awaitStore_log (s : Presenter) (actionType : UserAction) (updateType : UpdateType)
    (update : Point) (outcome : Outcome)
    (h : (s.awaitStore actionType updateType update outcome).fault = none) :
    (s.awaitStore actionType updateType update outcome).state.log =
      s.log ++ [.storeCall actionType updateType update, .unblock] := by
  unfold Presenter.awaitStore at h ⊢
  cases outcome with
  | resolved => simp [Presenter.emit]
  | rejected =>
    dsimp only at h ⊢
    split at h
    · simp at h
    · next s1 heq =>
      have hl := callHandle_log (s.emit (.storeCall actionType updateType update))
        update.id .setAborting "setAborting"
      rw [heq] at hl
      simp only [Presenter.emit] at hl ⊢
      simp [hl]

theorem awaitStore_rejected_of_get (s : Presenter) (actionType : UserAction)
    (updateType : UpdateType) (update : Point) (handle : PointPresenter)
    (h : s.pointPresenter.get update.id = some handle) :
    s.awaitStore actionType updateType update .rejected =
      ⟨{ s with
          pointPresenter := s.pointPresenter.modify update.id (fun h => h.call .setAborting)
          log := s.log ++ [.storeCall actionType updateType update, .unblock] }, none⟩ := by
  have h1 : (s.emit (.storeCall actionType updateType update)).pointPresenter.get update.id =
      some handle := h
  simp only [Presenter.awaitStore, callHandle_of_get _ _ _ _ _ h1]
  simp [Presenter.emit]

/-- C3: an Update action whose target id has a handle in the registry and whose
store call fails marks that handle saving, then aborting, raises no error,
and calls `block` once and `unblock` once after it (the effect log grows by
`block`, the store call, `unblock`); the other handles are not touched. -/
theorem handleViewAction_update_rejected (updateType : UpdateType) (update : Point)
    (s : Presenter) (handle : PointPresenter)
    (hget : s.pointPresenter.get update.id = some handle) :
    (s.handleViewAction .updatePoint updateType update .rejected).fault = none ∧
    (s.handleViewAction .updatePoint updateType update .rejected).state.pointPresenter.get
      update.id = some ⟨handle.calls ++ [.setSaving, .setAborting]⟩ ∧
    (s.handleViewAction .updatePoint updateType update .rejected).state.log =
      s.log ++ [.block, .storeCall .updatePoint updateType update, .unblock] ∧
    (∀ k, k ≠ update.id →
      (s.handleViewAction .updatePoint updateType update .rejected).state.pointPresenter.get k
        = s.pointPresenter.get k) := by
  have h1 : (s.emit .block).pointPresenter.get update.id = some handle := hget
  have h2 : ((s.emit .block).pointPresenter.modify update.id
      (fun h => h.call .setSaving)).get update.id = some (handle.call .setSaving) := by
    rw [Registry.get_modify_same, h1]; rfl
  simp only [Presenter.handleViewAction, callHandle_of_get _ _ _ _ _ h1]
  rw [awaitStore_rejected_of_get _ _ _ _ _ h2]
  refine ⟨rfl, ?_, ?_, ?_⟩
  · simp [Presenter.emit, Registry.get_modify_same, hget, PointPresenter.call]
  · simp [Presenter.emit]
  · intro k hk
    simp [Presenter.emit, Registry.get_modify_other _ _ _ hk]

theorem handleViewAction_update_rejected_witness :
    loadedBoard.pointPresenter.get pointA.id =
      some ⟨[.init pointA [] [geneva]]⟩ ∧
    (loadedBoard.handleViewAction .updatePoint .patch pointA .rejected).state.pointPresenter.get
      pointA.id = some ⟨[.init pointA [] [geneva], .setSaving, .setAborting]⟩ :=
  ⟨by decide,
    (handleViewAction_update_rejected .patch pointA loadedBoard
      ⟨[.init pointA [] [geneva]]⟩ (by decide)).2.1⟩

theorem awaitStore_resolved (s : Presenter) (actionType : UserAction)
    (updateType : UpdateType) (update : Point) :
    (s.awaitStore actionType updateType update .resolved).fault = none := rfl

theorem awaitStore_fault_of_get (s : Presenter) (actionType : UserAction)
    (updateType : UpdateType) (update : Point) (outcome : Outcome) (handle : PointPresenter)
    (h : s.pointPresenter.get update.id = some handle) :
    (s.awaitStore actionType updateType update outcome).fault = none := by
  cases outcome with
  | resolved => rfl
  | rejected => rw [awaitStore_rejected_of_get _ _ _ _ _ h]

/-- Whenever a dispatch completes without raising an error, `block` was called
exactly once and `unblock` exactly once after it, with the store call in
between. The dispatch completes, with either outcome of the store call, for
Update and Delete when the target id has a handle in the registry, and for Add
when the creation form exists and the store call succeeds. -/
theorem handleViewAction_block_release (actionType : UserAction) (updateType : UpdateType)
    (update : Point) (outcome : Outcome) (s : Presenter) :
    ((s.handleViewAction actionType updateType update outcome).fault = none →
      (s.handleViewAction actionType updateType update outcome).state.log =
        s.log ++ [.block, .storeCall actionType updateType update, .unblock]) ∧
    (actionType ≠ .addPoint → update.id ∈ s.pointPresenter.keys →
      (s.handleViewAction actionType updateType update outcome).fault = none) ∧
    (actionType = .addPoint → outcome = .resolved → s.eventEditComponent ≠ none →
      (s.handleViewAction actionType updateType update outcome).fault = none) := by
  refine ⟨?_, ?_, ?_⟩
  · intro hfault
    cases actionType with
    | updatePoint =>
      simp only [Presenter.handleViewAction] at hfault ⊢
      have hl := callHandle_log (s.emit .block) update.id .setSaving "setSaving"
      split at hfault
      · simp at hfault
      · next s1 heq =>
        rw [heq] at hl
        rw [awaitStore_log _ _ _ _ _ hfault]
        simp only [Presenter.emit] at hl
        simp [hl]
    | addPoint =>
      simp only [Presenter.handleViewAction] at hfault ⊢
      split at hfault
      · simp at hfault
      · rw [awaitStore_log _ _ _ _ _ hfault]
        simp [Presenter.emit]
    | deletePoint =>
      simp only [Presenter.handleViewAction] at hfault ⊢
      have hl := callHandle_log (s.emit .block) update.id .setDeleting "setDeleting"
      split at hfault
      · simp at hfault
      · next s1 heq =>
        rw [heq] at hl
        rw [awaitStore_log _ _ _ _ _ hfault]
        simp only [Presenter.emit] at hl
        simp [hl]
  · intro hne hkey
    obtain ⟨handle, hget⟩ := s.pointPresenter.get_isSome_of_mem update.id hkey
    have h1 : (s.emit .block).pointPresenter.get update.id = some handle := hget
    cases actionType with
    | addPoint => exact absurd rfl hne
    | updatePoint =>
      have h2 : ((s.emit .block).pointPresenter.modify update.id
          (fun h => h.call .setSaving)).get update.id = some (handle.call .setSaving) := by
        rw [Registry.get_modify_same, h1]; rfl
      simp only [Presenter.handleViewAction, callHandle_of_get _ _ _ _ _ h1]
      exact awaitStore_fault_of_get _ _ _ _ _ _ h2
    | deletePoint =>
      have h2 : ((s.emit .block).pointPresenter.modify update.id
          (fun h => h.call .setDeleting)).get update.id = some (handle.call .setDeleting) := by
        rw [Registry.get_modify_same, h1]; rfl
      simp only [Presenter.handleViewAction, callHandle_of_get _ _ _ _ _ h1]
      exact awaitStore_fault_of_get _ _ _ _ _ _ h2
  · intro hadd hres hform
    subst hadd hres
    cases hf : s.eventEditComponent with
    | none => exact absurd hf hform
    | some form =>
      have h1 : (s.emit .block).eventEditComponent = some form := hf
      simp only [Presenter.handleViewAction, h1]
      rfl

/-- C4, at the failing input: an Add whose store call fails, for a draft that
has no id. `block` is called and the store call is made, then the lookup in the
`catch` throws and `unblock` is never called. On the same board an Update and a
Delete whose store call fails, and an Add whose store call succeeds, call
`block` once and `unblock` once after it. -/
theorem handleViewAction_add_rejected_stays_blocked :
    (boardWithDraft.handleViewAction .addPoint .minor draftPoint .rejected).fault =
      some (.typeError "setAborting") ∧
    (boardWithDraft.handleViewAction .addPoint .minor draftPoint .rejected).state.log =
      boardWithDraft.log ++ [.block, .storeCall .addPoint .minor draftPoint] ∧
    Effect.unblock ∉
      (boardWithDraft.handleViewAction .addPoint .minor draftPoint .rejected).state.log ∧
    (boardWithDraft.handleViewAction .updatePoint .patch pointA .rejected).state.log =
      boardWithDraft.log ++ [.block, .storeCall .updatePoint .patch pointA, .unblock] ∧
    (boardWithDraft.handleViewAction .deletePoint .minor pointA .rejected).state.log =
      boardWithDraft.log ++ [.block, .storeCall .deletePoint .minor pointA, .unblock] ∧
    (boardWithDraft.handleViewAction .addPoint .minor draftPoint .resolved).state.log =
      boardWithDraft.log ++ [.block, .storeCall .addPoint .minor draftPoint, .unblock] := by
  decide

/-- C5, at the failing input: an Add whose store call fails, for a draft that
has no id. The form was told `updateElement` with `isSaving: true` and nothing
else, the `catch` looked the id up in the registry and threw, so the dispatch
ends with an error and without `unblock`. -/
theorem handleViewAction_add_rejected_throws :
    (boardWithDraft.handleViewAction .addPoint .minor draftPoint .rejected).fault =
      some (.typeError "setAborting") ∧
    (boardWithDraft.handleViewAction .addPoint .minor draftPoint .rejected).state.eventEditComponent
      = some ⟨[geneva], [], [.updateElement true]⟩ ∧
    (boardWithDraft.handleViewAction .addPoint .minor draftPoint .rejected).state.pointPresenter
      = boardWithDraft.pointPresenter ∧
    (boardWithDraft.handleViewAction .addPoint .minor draftPoint .rejected).state.log =
      boardWithDraft.log ++ [.block, .storeCall .addPoint .minor draftPoint] := by
  decide

/-! ## `Array.prototype.sort` -/

theorem orderedInsert_perm (cmp : Point → Point → Int) (a : Point) (l : List Point) :
    (orderedInsert cmp a l).Perm (a :: l) := by
  induction l with
  | nil => exact List.Perm.refl _
  | cons b rest ih =>
    by_cases h : cmp a b ≤ 0
    · simp [orderedInsert, h]
    · simp only [orderedInsert, h, if_false]
      exact (List.Perm.cons b ih).trans (List.Perm.swap a b rest)

theorem ConsistentComparator.lt_flip {cmp : Point → Point → Int}
    (hc : ConsistentComparator cmp) (a b : Point) (h : 0 < cmp a b) : cmp b a < 0 := by
  rcases lt_trichotomy (cmp b a) 0 with hlt | heq | hgt
  · exact hlt
  · have := hc.eq_symm b a heq
    omega
  · have := hc.gt_chain a b a h hgt
    have := hc.self_eq a
    omega

theorem ConsistentComparator.gt_flip {cmp : Point → Point → Int}
    (hc : ConsistentComparator cmp) (a b : Point) (h : cmp a b < 0) : 0 < cmp b a := by
  rcases lt_trichotomy (cmp b a) 0 with hlt | heq | hgt
  · have := hc.lt_chain a b a h hlt
    have := hc.self_eq a
    omega
  · have := hc.eq_symm b a heq
    omega
  · exact hgt

theorem ConsistentComparator.le_total {cmp : Point → Point → Int}
    (hc : ConsistentComparator cmp) (a b : Point) : cmp a b ≤ 0 ∨ cmp b a ≤ 0 := by
  by_cases h : cmp a b ≤ 0
  · exact Or.inl h
  · exact Or.inr (le_of_lt (hc.lt_flip a b (by omega)))

theorem ConsistentComparator.lt_eq_chain {cmp : Point → Point → Int}
    (hc : ConsistentComparator cmp) (a b c : Point) (hab : cmp a b < 0) (hbc : cmp b c = 0) :
    cmp a c < 0 := by
  rcases lt_trichotomy (cmp a c) 0 with hlt | heq | hgt
  · exact hlt
  · have h1 := hc.eq_chain a c b heq (hc.eq_symm b c hbc)
    omega
  · have h1 := hc.gt_chain b a c (hc.gt_flip a b hab) hgt
    omega

theorem ConsistentComparator.eq_lt_chain {cmp : Point → Point → Int}
    (hc : ConsistentComparator cmp) (a b c : Point) (hab : cmp a b = 0) (hbc : cmp b c < 0) :
    cmp a c < 0 := by
  rcases lt_trichotomy (cmp a c) 0 with hlt | heq | hgt
  · exact hlt
  · have h1 := hc.eq_chain b a c (hc.eq_symm a b hab) heq
    omega
  · have h1 := hc.gt_chain a c b hgt (hc.gt_flip b c hbc)
    omega

theorem ConsistentComparator.le_chain {cmp : Point → Point → Int}
    (hc : ConsistentComparator cmp) (a b c : Point) (hab : cmp a b ≤ 0) (hbc : cmp b c ≤ 0) :
    cmp a c ≤ 0 := by
  rcases lt_or_eq_of_le hab with h1 | h1 <;> rcases lt_or_eq_of_le hbc with h2 | h2
  · exact le_of_lt (hc.lt_chain a b c h1 h2)
  · exact le_of_lt (hc.lt_eq_chain a b c h1 h2)
  · exact le_of_lt (hc.eq_lt_chain a b c h1 h2)
  · exact le_of_eq (hc.eq_chain a b c h1 h2)

theorem orderedInsert_pairwise (cmp : Point → Point → Int) (hc : ConsistentComparator cmp)
    (a : Point) (l : List Point) (hl : l.Pairwise (fun x y => cmp x y ≤ 0)) :
    (orderedInsert cmp a l).Pairwise (fun x y => cmp x y ≤ 0) := by
  induction l with
  | nil => simp [orderedInsert]
  | cons b rest ih =>
    rw [List.pairwise_cons] at hl
    by_cases h : cmp a b ≤ 0
    · simp only [orderedInsert, h, if_true]
      refine List.Pairwise.cons ?_ (List.Pairwise.cons hl.1 hl.2)
      intro x hx
      rcases List.mem_cons.1 hx with rfl | hx
      · exact h
      · exact hc.le_chain a b x h (hl.1 x hx)
    · simp only [orderedInsert, h, if_false]
      refine List.Pairwise.cons ?_ (ih hl.2)
      intro x hx
      have hx' := (orderedInsert_perm cmp a rest).mem_iff.1 hx
      rcases List.mem_cons.1 hx' with rfl | hx'
      · exact (hc.le_total x b).resolve_left h
      · exact hl.1 x hx'

theorem stableSort_pairwise (cmp : Point → Point → Int) (hc : ConsistentComparator cmp)
    (l : List Point) : (stableSort cmp l).Pairwise (fun x y => cmp x y ≤ 0) := by
  induction l with
  | nil => exact List.Pairwise.nil
  | cons a rest ih => exact orderedInsert_pairwise cmp hc a _ ih

theorem stableSort_of_pairwise (cmp : Point → Point → Int) (l : List Point)
    (hl : l.Pairwise (fun x y => cmp x y ≤ 0)) : stableSort cmp l = l := by
  induction l with
  | nil => rfl
  | cons a rest ih =>
    rw [List.pairwise_cons] at hl
    simp only [stableSort, ih hl.2]
    cases rest with
    | nil => rfl
    | cons b rest' => simp [orderedInsert, hl.1 b (List.mem_cons_self _ _)]

theorem ArraySort.pairwise (engine : ArraySort) (cmp : Point → Point → Int)
    (hc : ConsistentComparator cmp) (l : List Point) :
    (engine.sort cmp l).Pairwise (fun x y => cmp x y ≤ 0) := by
  rw [engine.sorted cmp l hc]
  exact stableSort_pairwise cmp hc l

theorem ArraySort.sort_sort (engine : ArraySort) (cmp : Point → Point → Int)
    (hc : ConsistentComparator cmp) (l : List Point) :
    engine.sort cmp (engine.sort cmp l) = engine.sort cmp l := by
  rw [engine.sorted cmp (engine.sort cmp l) hc]
  exact stableSort_of_pairwise cmp _ (engine.pairwise cmp hc l)

/-! ## The `points` getter -/

theorem points_fst (env : Env) (s : Presenter) :
    (s.points env).1 =
      visiblePoints env s.pointsModel.points s.filterModel.filter s.currentSortType := by
  unfold Presenter.points visiblePoints
  cases s.currentSortType <;> rfl

theorem visiblePoints_perm (env : Env) (rawItems : List Point) (filterKind : FilterType)
    (sortKind : SortType) :
    (visiblePoints env rawItems filterKind sortKind).Perm
      ((env.filter filterKind).apply rawItems) := by
  unfold visiblePoints
  cases env.comparator sortKind with
  | none => exact List.Perm.refl _
  | some cmp => exact env.arraySort.perm cmp _

/-- C8: the `points` getter hands `filter[F](C)` to `Array.prototype.sort` with
`sortDateFrom` for Day, `sortTime` for Time and `sortPrice` for Price, which is
the view projection of the specification; whatever the comparator, the result
is a permutation of `filter[F](C)`; when the comparator in use is a consistent
comparator, the result is in the order of the comparator, elements that compare
equal keeping the order they have in `filter[F](C)`; for any other sort kind
the result is `filter[F](C)` itself. The getter is a total function: it raises
no error. -/
theorem points_filtered_then_sorted (env : Env) (s : Presenter) :
    (s.points env).1 =
      visiblePoints env s.pointsModel.points s.filterModel.filter s.currentSortType ∧
    (s.points env).1.Perm ((env.filter s.filterModel.filter).apply s.pointsModel.points) ∧
    (s.currentSortType = .day → (s.points env).1 =
      env.arraySort.sort env.sortDateFrom
        ((env.filter s.filterModel.filter).apply s.pointsModel.points)) ∧
    (s.currentSortType = .time → (s.points env).1 =
      env.arraySort.sort env.sortTime
        ((env.filter s.filterModel.filter).apply s.pointsModel.points)) ∧
    (s.currentSortType = .price → (s.points env).1 =
      env.arraySort.sort env.sortPrice
        ((env.filter s.filterModel.filter).apply s.pointsModel.points)) ∧
    (∀ cmp, env.comparator s.currentSortType = some cmp → ConsistentComparator cmp →
      (s.points env).1.Pairwise (fun a b => cmp a b ≤ 0) ∧
      (s.points env).1 =
        stableSort cmp ((env.filter s.filterModel.filter).apply s.pointsModel.points)) ∧
    (∀ tag, s.currentSortType = .other tag →
      (s.points env).1 = (env.filter s.filterModel.filter).apply s.pointsModel.points) := by
  refine ⟨points_fst env s, ?_, ?_, ?_, ?_, ?_, ?_⟩
  · rw [points_fst]; exact visiblePoints_perm _ _ _ _
  · intro h; rw [points_fst, h]; rfl
  · intro h; rw [points_fst, h]; rfl
  · intro h; rw [points_fst, h]; rfl
  · intro cmp h hc
    rw [points_fst]
    unfold visiblePoints
    rw [h]
    exact ⟨env.arraySort.pairwise cmp hc _, env.arraySort.sorted cmp _ hc⟩
  · intro tag h; rw [points_fst, h]; rfl

theorem sampleEnv_sortPrice_consistent : ConsistentComparator sampleEnv.sortPrice := by
  refine ⟨?_, ?_, ?_, ?_, ?_⟩
  · intro a
    show a.price - a.price = 0
    omega
  · intro a b
    show a.price - b.price = 0 → b.price - a.price = 0
    omega
  · intro a b c
    show a.price - b.price = 0 → b.price - c.price = 0 → a.price - c.price = 0
    omega
  · intro a b c
    show a.price - b.price < 0 → b.price - c.price < 0 → a.price - c.price < 0
    omega
  · intro a b c
    show 0 < a.price - b.price → 0 < b.price - c.price → 0 < a.price - c.price
    omega

theorem points_filtered_then_sorted_witness :
    priceBoard.currentSortType = .price ∧
    (priceBoard.points sampleEnv).1.map Point.price = [10, 30, 50] ∧
    (priceBoard.points sampleEnv).1 =
      sampleEnv.arraySort.sort sampleEnv.sortPrice
        ((sampleEnv.filter priceBoard.filterModel.filter).apply priceBoard.pointsModel.points) ∧
    (priceBoard.points sampleEnv).1.Pairwise (fun a b => sampleEnv.sortPrice a b ≤ 0) :=
  ⟨by decide, by decide,
    (points_filtered_then_sorted sampleEnv priceBoard).2.2.2.2.1 (by decide),
    ((points_filtered_then_sorted sampleEnv priceBoard).2.2.2.2.2.1 sampleEnv.sortPrice rfl
      sampleEnv_sortPrice_consistent).1⟩

/-- C10: reading the `points` getter twice in a row, the second time in the
state the first read left behind (`#filterType` overwritten, the array sorted
in place), gives the same sequence both times, and the second read leaves that
state as it is. When the in-place sort reaches the store's own array, the
second read sorts what the first one sorted, and the comparator in use has to
be a consistent comparator: for any other, the language leaves the order of
each sort to the engine. -/
theorem points_read_twice (env : Env) (s : Presenter)
    (hcmp : env.filter s.filterModel.filter = .sameArray → env.storeSharesArray = true →
      ∀ cmp, env.comparator s.currentSortType = some cmp → ConsistentComparator cmp) :
    ((s.points env).2.points env).1 = (s.points env).1 ∧
    ((s.points env).2.points env).2 = (s.points env).2 := by
  unfold Presenter.points Presenter.sortedInPlace
  cases hS : s.currentSortType <;> cases hF : env.filter s.filterModel.filter <;>
    cases hB : env.storeSharesArray <;>
    simp [hS, hF, hB, FilterFn.apply] <;>
    simp [env.arraySort.sort_sort _ (hcmp hF hB _ (by rw [hS]; rfl))]

theorem points_read_twice_witness :
    ((priceBoard.points sampleEnv).2.points sampleEnv).1 = (priceBoard.points sampleEnv).1 ∧
    (priceBoard.points sampleEnv).2.pointsModel.points = [pointB, pointC, pointA] ∧
    priceBoard.pointsModel.points = [pointA, pointB, pointC] :=
  ⟨(points_read_twice sampleEnv priceBoard (fun _ _ cmp h => by
      have h' : sampleEnv.sortPrice = cmp := Option.some.inj h
      exact h' ▸ sampleEnv_sortPrice_consistent)).1,
    by decide, by decide⟩

/-! ## States the getter cannot tell apart -/

theorem StoreEquiv.same (env : Env) (filterKind : FilterType) (c : List Point) :
    StoreEquiv env filterKind c c := Or.inl rfl

theorem StoreEquiv.chain {env : Env} {filterKind : FilterType} {c c' c'' : List Point}
    (h : StoreEquiv env filterKind c c') (h' : StoreEquiv env filterKind c' c'') :
    StoreEquiv env filterKind c c'' := by
  rcases h with rfl | ⟨hf, hp⟩
  · exact h'
  · rcases h' with rfl | ⟨_, hp'⟩
    · exact Or.inr ⟨hf, hp⟩
    · exact Or.inr ⟨hf, hp'.trans hp⟩

theorem visiblePoints_perm_of_storeEquiv {env : Env} {filterKind : FilterType}
    {c c' : List Point} (h : StoreEquiv env filterKind c c') (sortKind : SortType) :
    (visiblePoints env c' filterKind sortKind).Perm (visiblePoints env c filterKind sortKind) := by
  rcases h with rfl | ⟨hf, hp⟩
  · exact List.Perm.refl _
  · have h1 := visiblePoints_perm env c' filterKind sortKind
    have h2 := visiblePoints_perm env c filterKind sortKind
    rw [hf] at h1 h2
    exact h1.trans (hp.trans h2.symm)

theorem Agrees.self (env : Env) (s : Presenter) : Agrees env s s :=
  ⟨rfl, rfl, rfl, rfl, StoreEquiv.same _ _ _⟩

theorem Agrees.andThen {env : Env} {s s' s'' : Presenter} (h : Agrees env s s')
    (h' : Agrees env s' s'') : Agrees env s s'' := by
  refine ⟨h'.filterModel.trans h.filterModel, h'.currentSortType.trans h.currentSortType,
    h'.isLoading.trans h.isLoading, h'.allDestinations.trans h.allDestinations, ?_⟩
  have := h'.store
  rw [h.filterModel] at this
  exact h.store.chain this

theorem Agrees.of_eq (env : Env) {s s' : Presenter} (h1 : s'.filterModel = s.filterModel)
    (h2 : s'.currentSortType = s.currentSortType) (h3 : s'.isLoading = s.isLoading)
    (h4 : s'.allDestinations = s.allDestinations) (h5 : s'.pointsModel = s.pointsModel) :
    Agrees env s s' :=
  ⟨h1, h2, h3, h4, Or.inl (by rw [h5])⟩

theorem Agrees.points_perm {env : Env} {s s' : Presenter} (h : Agrees env s s') :
    (s'.points env).1.Perm (s.points env).1 := by
  rw [points_fst, points_fst, h.filterModel, h.currentSortType]
  exact visiblePoints_perm_of_storeEquiv h.store _

theorem points_agrees (env : Env) (s : Presenter) : Agrees env s (s.points env).2 := by
  refine ⟨by rw [points_snd], by rw [points_snd], by rw [points_snd], by rw [points_snd], ?_⟩
  unfold Presenter.points Presenter.sortedInPlace StoreEquiv
  cases hS : s.currentSortType <;> cases hF : env.filter s.filterModel.filter <;>
    cases hB : env.storeSharesArray <;>
    simp [hS, hF, hB, FilterFn.apply, env.arraySort.perm]

theorem emit_agrees (env : Env) (s : Presenter) (e : Effect) : Agrees env s (s.emit e) :=
  Agrees.of_eq env rfl rfl rfl rfl rfl

theorem removeView_agrees (env : Env) (s : Presenter) (v : Option View) :
    Agrees env s (s.removeView v) := by
  cases v
  · exact Agrees.self env s
  · exact emit_agrees env s _

theorem renderPoints_agrees (env : Env) (points : List Point) (s : Presenter) :
    Agrees env s (s.renderPoints points) := by
  induction points generalizing s with
  | nil => exact Agrees.self env s
  | cons p rest ih =>
    exact (Agrees.of_eq env rfl rfl rfl rfl rfl : Agrees env s (s.renderPoint p)).andThen (ih _)

theorem renderBoard_agrees (env : Env) (s : Presenter) :
    Agrees env s (s.renderBoard env).state := by
  have h := (removeView_agrees env s (some (.board s.boardComponent))).andThen
    (points_agrees env _)
  unfold Presenter.renderBoard
  dsimp only
  split
  · exact h
  · exact h.andThen (Agrees.of_eq env rfl rfl rfl rfl rfl)

theorem renderContainer_agrees (env : Env) (s : Presenter) :
    Agrees env s (s.renderContainer env).state := by
  have hb := renderBoard_agrees env s
  unfold Presenter.renderContainer
  split
  · next s1 f heq => rw [heq] at hb; exact hb
  · next s1 heq =>
    rw [heq] at hb
    dsimp only at hb ⊢
    split
    · exact hb.andThen (Agrees.of_eq env rfl rfl rfl rfl rfl)
    · have hp := points_agrees env s1
      refine hb.andThen (hp.andThen ?_)
      dsimp only
      split
      · exact Agrees.of_eq env rfl rfl rfl rfl rfl
      · have h1 := emit_agrees env (s1.points env).2
          (.render .eventsList .bodyContainer .beforeEnd)
        have h2 := points_agrees env
          ((s1.points env).2.emit (.render .eventsList .bodyContainer .beforeEnd))
        have h3 := renderPoints_agrees env
          (((s1.points env).2.emit (.render .eventsList .bodyContainer .beforeEnd)).points env).1
          (((s1.points env).2.emit (.render .eventsList .bodyContainer .beforeEnd)).points env).2
        exact ((h1.andThen h2).andThen h3).andThen (Agrees.of_eq env rfl rfl rfl rfl rfl)

/-! ## The rebuild: `#clearBoard` then `#renderContainer` -/

theorem points_emit (env : Env) (s : Presenter) (e : Effect) :
    (s.emit e).points env = ((s.points env).1, (s.points env).2.emit e) := by
  obtain ⟨b, sc, ee, ad, ao, pm, fm, nt, pp, cs, ft, il, lg⟩ := s
  simp only [Presenter.points, Presenter.sortedInPlace, Presenter.emit]
  cases cs <;> cases hF : env.filter fm.filter <;> cases hB : env.storeSharesArray <;> simp

theorem visiblePoints_eq_nil_iff (env : Env) (rawItems : List Point) (filterKind : FilterType)
    (sortKind : SortType) :
    visiblePoints env rawItems filterKind sortKind = [] ↔
      (env.filter filterKind).apply rawItems = [] := by
  constructor
  · intro h
    have := visiblePoints_perm env rawItems filterKind sortKind
    rw [h] at this
    exact List.Perm.eq_nil this.symm
  · intro h
    have := visiblePoints_perm env rawItems filterKind sortKind
    rw [h] at this
    exact List.Perm.eq_nil this

theorem Agrees.points_eq_nil {env : Env} {s s' : Presenter} (h : Agrees env s s')
    (hs : (s.points env).1 = []) : (s'.points env).1 = [] := by
  have := h.points_perm
  rw [hs] at this
  exact List.Perm.eq_nil this

theorem clearBoard_points_perm (env : Env) (s : Presenter) (resetSortType : Bool) :
    ((s.clearBoard resetSortType).points env).1.Perm
      ((env.filter s.filterModel.filter).apply s.pointsModel.points) := by
  rw [points_fst]
  have h1 : (s.clearBoard resetSortType).filterModel = s.filterModel := by
    rw [clearBoard_eq]
  have h2 : (s.clearBoard resetSortType).pointsModel = s.pointsModel := by
    rw [clearBoard_eq]
  rw [h1, h2]
  exact visiblePoints_perm _ _ _ _

theorem renderPoints_keys (points : List Point) (s : Presenter) (k : Option Nat) :
    k ∈ (s.renderPoints points).pointPresenter.keys ↔
      k ∈ s.pointPresenter.keys ∨ k ∈ points.map Point.id := by
  induction points generalizing s with
  | nil => simp [Presenter.renderPoints]
  | cons p rest ih =>
    simp only [Presenter.renderPoints, ih, List.map_cons, List.mem_cons]
    have : k ∈ (s.renderPoint p).pointPresenter.keys ↔ k = p.id ∨ k ∈ s.pointPresenter.keys := by
      simp only [Presenter.renderPoint]
      exact Registry.mem_keys_set _ _ _ _
    rw [this]
    tauto

theorem points_snd_pointPresenter (env : Env) (s : Presenter) :
    (s.points env).2.pointPresenter = s.pointPresenter := by
  rw [points_snd]

theorem renderBoard_pointPresenter (env : Env) (s : Presenter) :
    (s.renderBoard env).state.pointPresenter = s.pointPresenter := by
  unfold Presenter.renderBoard
  dsimp only
  split
  · rw [points_snd_pointPresenter]; rfl
  · simp only [Presenter.emit]
    rw [points_snd_pointPresenter]; rfl

theorem boardRows_isSome (allDestinations : List Destination) (points : List Point)
    (h : ∀ p ∈ points, ∃ d ∈ allDestinations, d.id = p.destination) :
    ∃ rows, boardRows allDestinations points = some rows := by
  induction points with
  | nil => exact ⟨[], rfl⟩
  | cons p rest ih =>
    obtain ⟨rows, hrows⟩ := ih (fun q hq => h q (List.mem_cons_of_mem _ hq))
    obtain ⟨d, hd, hid⟩ := h p (List.mem_cons_self _ _)
    cases hf : allDestinations.find? (fun destination => destination.id = p.destination) with
    | none =>
      rw [List.find?_eq_none] at hf
      exact absurd (by simpa using hid) (hf d hd)
    | some d' => exact ⟨(p, d'.name) :: rows, by simp [boardRows, hf, hrows]⟩

theorem renderBoard_fault (env : Env) (s : Presenter)
    (h : ∀ p ∈ (s.points env).1, ∃ d ∈ s.allDestinations, d.id = p.destination) :
    (s.renderBoard env).fault = none := by
  unfold Presenter.renderBoard
  dsimp only
  have hp : ((s.removeView (some (.board s.boardComponent))).points env) =
      ((s.points env).1, (s.points env).2.emit (.remove (.board s.boardComponent))) :=
    points_emit env s _
  have hd : ((s.points env).2.emit (.remove (.board s.boardComponent))).allDestinations =
      s.allDestinations := by
    simp only [Presenter.emit]; rw [points_snd]
  obtain ⟨rows, hrows⟩ := boardRows_isSome s.allDestinations _ h
  rw [hp]
  dsimp only
  rw [hd, hrows]

theorem renderContainer_fault (env : Env) (s : Presenter) :
    (s.renderContainer env).fault = (s.renderBoard env).fault := by
  unfold Presenter.renderContainer
  split
  · next s1 f heq => rw [heq]
  · next s1 heq =>
    rw [heq]
    dsimp only
    split <;> rfl

theorem renderContainer_keys (env : Env) (s : Presenter) (hload : s.isLoading = false)
    (hdone : (s.renderContainer env).fault = none) (k : Option Nat) :
    k ∈ (s.renderContainer env).state.pointPresenter.keys ↔
      k ∈ s.pointPresenter.keys ∨ k ∈ (s.points env).1.map Point.id := by
  have hb := renderBoard_agrees env s
  have hr := renderBoard_pointPresenter env s
  unfold Presenter.renderContainer at hdone ⊢
  split at hdone
  · simp at hdone
  · next s1 heq =>
    rw [heq] at hb hr
    simp only [heq]
    dsimp only at hb hr ⊢
    have hl : s1.isLoading = false := hb.isLoading.trans hload
    simp only [hl, Bool.false_eq_true, if_false]
    have hp := points_agrees env s1
    have hpp := points_snd_pointPresenter env s1
    have hperm := hb.points_perm
    generalize s1.points env = P at hp hpp hperm ⊢
    obtain ⟨Q, s2⟩ := P
    dsimp only at hp hpp hperm ⊢
    split
    · next hlen =>
      have hnil : Q = [] := List.length_eq_zero.1 hlen
      have hnil' : (s.points env).1 = [] := by
        rw [hnil] at hperm
        exact List.Perm.eq_nil hperm.symm
      show k ∈ s2.pointPresenter.keys ↔ _
      rw [hpp, hr, hnil']
      simp
    · have h2p := points_snd_pointPresenter env
        (s2.emit (.render .eventsList .bodyContainer .beforeEnd))
      have hperm2 := (hb.andThen (hp.andThen (emit_agrees env s2
        (.render .eventsList .bodyContainer .beforeEnd)))).points_perm
      generalize (s2.emit (.render .eventsList .bodyContainer .beforeEnd)).points env = P2
        at h2p hperm2 ⊢
      obtain ⟨Q2, s3⟩ := P2
      dsimp only at h2p hperm2 ⊢
      show k ∈ (s3.renderPoints Q2).pointPresenter.keys ↔ _
      rw [renderPoints_keys, h2p]
      show k ∈ s2.pointPresenter.keys ∨ _ ↔ _
      rw [hpp, hr, (hperm2.map Point.id).mem_iff]

theorem points_snd_filterType (env : Env) (s : Presenter) :
    (s.points env).2.filterType = s.filterModel.filter := by
  rw [points_snd]

theorem points_snd_log (env : Env) (s : Presenter) : (s.points env).2.log = s.log := by
  rw [points_snd]

theorem points_snd_filterModel (env : Env) (s : Presenter) :
    (s.points env).2.filterModel = s.filterModel := by
  rw [points_snd]

theorem points_snd_isLoading (env : Env) (s : Presenter) :
    (s.points env).2.isLoading = s.isLoading := by
  rw [points_snd]

theorem renderContainer_of_empty (env : Env) (s : Presenter) (hload : s.isLoading = false)
    (hnil : (s.points env).1 = []) :
    (s.renderContainer env).fault = none ∧
    (s.renderContainer env).state.noTaskComponent = some s.filterModel.filter ∧
    (s.renderContainer env).state.pointPresenter = s.pointPresenter ∧
    (s.renderContainer env).state.log = s.log ++
      [.remove (.board s.boardComponent),
        .render (.board []) .boardContainer .afterBegin,
        .render (.listEmpty s.filterModel.filter) .bodyContainer .afterBegin,
        .render (.sort s.currentSortType) .bodyContainer .afterBegin,
        .render .eventsList .bodyContainer .beforeEnd] := by
  have e1 := points_snd_filterModel env s
  have e2 := points_snd_isLoading env s
  have e3 := points_snd_log env s
  have e4 := points_snd_pointPresenter env s
  have e5 := points_snd_currentSortType env s
  have ha := points_agrees env s
  have hnil0 := hnil
  unfold Presenter.renderContainer Presenter.renderBoard
  simp only [Presenter.removeView, points_emit]
  generalize s.points env = P at hnil e1 e2 e3 e4 e5 ha ⊢
  obtain ⟨Q, s1⟩ := P
  dsimp only at hnil e1 e2 e3 e4 e5 ha ⊢
  subst hnil
  simp only [boardRows, Presenter.emit]
  have hl : s1.isLoading = false := e2.trans hload
  split
  · next h => rw [hl] at h; exact absurd h (by decide)
  have hx : Agrees env s
      { s1 with
        boardComponent := []
        log := s1.log ++ [.remove (.board s.boardComponent)] ++
          [.render (.board []) .boardContainer .afterBegin] } :=
    ha.andThen (Agrees.of_eq env rfl rfl rfl rfl rfl)
  have f1 := points_snd_filterType env
      { s1 with
        boardComponent := []
        log := s1.log ++ [.remove (.board s.boardComponent)] ++
          [.render (.board []) .boardContainer .afterBegin] }
  have f3 := points_snd_log env
      { s1 with
        boardComponent := []
        log := s1.log ++ [.remove (.board s.boardComponent)] ++
          [.render (.board []) .boardContainer .afterBegin] }
  have f4 := points_snd_pointPresenter env
      { s1 with
        boardComponent := []
        log := s1.log ++ [.remove (.board s.boardComponent)] ++
          [.render (.board []) .boardContainer .afterBegin] }
  have f5 := points_snd_currentSortType env
      { s1 with
        boardComponent := []
        log := s1.log ++ [.remove (.board s.boardComponent)] ++
          [.render (.board []) .boardContainer .afterBegin] }
  have hq := hx.points_eq_nil hnil0
  generalize Presenter.points env
      { s1 with
        boardComponent := []
        log := s1.log ++ [.remove (.board s.boardComponent)] ++
          [.render (.board []) .boardContainer .afterBegin] } = P2 at f1 f3 f4 f5 hq ⊢
  obtain ⟨Q2, s2⟩ := P2
  dsimp only at f1 f3 f4 f5 hq ⊢
  subst hq
  simp only [List.length_nil, if_true, Presenter.renderSort, Presenter.renderNoTaskComponent,
    Presenter.emit]
  refine ⟨trivial, ?_, ?_, ?_⟩
  · rw [f1, e1]
  · rw [f4, e4]
  · rw [f1, f3, f5, e1, e3, e5]
    simp

theorem clearBoard_isLoading (s : Presenter) (resetSortType : Bool) :
    (s.clearBoard resetSortType).isLoading = s.isLoading := by
  rw [clearBoard_eq]

theorem clearBoard_pointPresenter (s : Presenter) (resetSortType : Bool) :
    (s.clearBoard resetSortType).pointPresenter = Registry.empty := by
  rw [clearBoard_eq]

theorem clearBoard_allDestinations (s : Presenter) (resetSortType : Bool) :
    (s.clearBoard resetSortType).allDestinations = s.allDestinations := by
  rw [clearBoard_eq]

theorem clearBoard_filterModel (s : Presenter) (resetSortType : Bool) :
    (s.clearBoard resetSortType).filterModel = s.filterModel := by
  rw [clearBoard_eq]

theorem clearBoard_boardComponent (s : Presenter) (resetSortType : Bool) :
    (s.clearBoard resetSortType).boardComponent = s.boardComponent := by
  rw [clearBoard_eq]

theorem rebuild_fault (env : Env) (s : Presenter) (resetSortType : Bool)
    (h : ∀ p ∈ (env.filter s.filterModel.filter).apply s.pointsModel.points,
      ∃ d ∈ s.allDestinations, d.id = p.destination) :
    ((s.clearBoard resetSortType).renderContainer env).fault = none := by
  rw [renderContainer_fault]
  apply renderBoard_fault
  intro p hp
  rw [clearBoard_allDestinations]
  exact h p ((clearBoard_points_perm env s resetSortType).mem_iff.1 hp)

theorem rebuild_keys (env : Env) (s : Presenter) (resetSortType : Bool)
    (hload : s.isLoading = false)
    (hdone : ((s.clearBoard resetSortType).renderContainer env).fault = none) (k : Option Nat) :
    k ∈ ((s.clearBoard resetSortType).renderContainer env).state.pointPresenter.keys ↔
      k ∈ ((((s.clearBoard resetSortType).renderContainer env).state.points env).1.map
        Point.id) := by
  rw [renderContainer_keys env _ ((clearBoard_isLoading s resetSortType).trans hload) hdone,
    clearBoard_pointPresenter,
    ((renderContainer_agrees env (s.clearBoard resetSortType)).points_perm.map Point.id).mem_iff]
  simp [Registry.keys, Registry.empty]

/-- C2 (amended): when the loading flag is cleared, a Minor or Major
notification whose rebuild finishes leaves a registry whose key set is exactly
the set of ids of the items the `points` getter returns in the resulting state.
The rebuild finishes whenever every item that passes the filter has its
destination among the known destinations. -/
theorem handleModelEvent_rebuild_keys (env : Env) (updateType : UpdateType) (data : Point)
    (s : Presenter) (hu : updateType = .minor ∨ updateType = .major)
    (hload : s.isLoading = false) :
    ((∀ p ∈ (env.filter s.filterModel.filter).apply s.pointsModel.points,
        ∃ d ∈ s.allDestinations, d.id = p.destination) →
      (s.handleModelEvent env updateType data).fault = none) ∧
    ((s.handleModelEvent env updateType data).fault = none →
      ∀ k, k ∈ (s.handleModelEvent env updateType data).state.pointPresenter.keys ↔
        k ∈ (((s.handleModelEvent env updateType data).state.points env).1.map Point.id)) := by
  rcases hu with rfl | rfl
  · exact ⟨rebuild_fault env s false, fun hdone k => rebuild_keys env s false hload hdone k⟩
  · exact ⟨rebuild_fault env s true, fun hdone k => rebuild_keys env s true hload hdone k⟩

theorem handleModelEvent_rebuild_keys_witness :
    loadedBoard.isLoading = false ∧
    (loadedBoard.handleModelEvent sampleEnv .major pointA).fault = none ∧
    (loadedBoard.handleModelEvent sampleEnv .major pointA).state.pointPresenter.keys =
      [some 2, some 3, some 1] ∧
    (some 2 ∈
        (loadedBoard.handleModelEvent sampleEnv .major pointA).state.pointPresenter.keys ↔
      some 2 ∈
        (((loadedBoard.handleModelEvent sampleEnv .major pointA).state.points sampleEnv).1.map
          Point.id)) :=
  ⟨by decide, by decide, by decide,
    (handleModelEvent_rebuild_keys sampleEnv .major pointA loadedBoard (Or.inr rfl)
      (by decide)).2 (by decide) (some 2)⟩

/-- C2, as stated, fails while the loading flag is set: a Minor notification
finishes its rebuild at the early return of `#renderContainer`, the registry
stays empty and the `points` getter returns three items. -/
theorem handleModelEvent_minor_while_loading :
    shellInitBoard.isLoading = true ∧
    (shellInitBoard.handleModelEvent sampleEnv .minor pointA).fault = none ∧
    (shellInitBoard.handleModelEvent sampleEnv .minor pointA).state.pointPresenter.keys = [] ∧
    ((shellInitBoard.handleModelEvent sampleEnv .minor pointA).state.points sampleEnv).1.map
      Point.id = [some 2, some 3, some 1] := by
  decide

/-- C9 (amended): when the loading flag is cleared and the visible list the
`points` getter computes is empty, a rebuild (`#clearBoard`, then
`#renderContainer`) finishes without an error, renders the empty-state
placeholder built with the filter model's current filter kind, and leaves the
registry empty; the effects after `#clearBoard` are the board, the placeholder,
the sort view and the list, in this order. -/
theorem rebuild_empty_placeholder (env : Env) (s : Presenter) (resetSortType : Bool)
    (hload : s.isLoading = false) (hempty : (s.points env).1 = []) :
    ((s.clearBoard resetSortType).renderContainer env).fault = none ∧
    ((s.clearBoard resetSortType).renderContainer env).state.noTaskComponent =
      some s.filterModel.filter ∧
    ((s.clearBoard resetSortType).renderContainer env).state.pointPresenter = Registry.empty ∧
    ((s.clearBoard resetSortType).renderContainer env).state.log =
      (s.clearBoard resetSortType).log ++
        [.remove (.board s.boardComponent),
          .render (.board []) .boardContainer .afterBegin,
          .render (.listEmpty s.filterModel.filter) .bodyContainer .afterBegin,
          .render (.sort (if resetSortType then .day else s.currentSortType))
            .bodyContainer .afterBegin,
          .render .eventsList .bodyContainer .beforeEnd] := by
  have hnil : ((s.clearBoard resetSortType).points env).1 = [] := by
    have h1 := clearBoard_points_perm env s resetSortType
    rw [points_fst, visiblePoints_eq_nil_iff] at hempty
    rw [hempty] at h1
    exact List.Perm.eq_nil h1
  have h := renderContainer_of_empty env (s.clearBoard resetSortType)
    ((clearBoard_isLoading s resetSortType).trans hload) hnil
  rw [clearBoard_filterModel, clearBoard_pointPresenter, clearBoard_boardComponent,
    clearBoard_currentSortType] at h
  exact h

theorem rebuild_empty_placeholder_witness :
    emptyLoadedBoard.isLoading = false ∧
    emptyLoadedBoard.pointsModel.points = [] ∧
    emptyLoadedBoard.filterModel.filter = .everything ∧
    ((emptyLoadedBoard.clearBoard true).renderContainer sampleEnv).state.noTaskComponent =
      some .everything :=
  ⟨by decide, by decide, by decide,
    (rebuild_empty_placeholder sampleEnv emptyLoadedBoard true (by decide) (by decide)).2.1⟩

/-- C9, as stated, fails while the loading flag is set: on an empty store with
filter Everything the rebuild renders the list and the loading view and
returns; no placeholder is built or rendered. -/
theorem rebuild_empty_while_loading :
    emptyLoadingBoard.isLoading = true ∧
    (emptyLoadingBoard.points sampleEnv).1 = [] ∧
    ((emptyLoadingBoard.clearBoard true).renderContainer sampleEnv).fault = none ∧
    ((emptyLoadingBoard.clearBoard true).renderContainer sampleEnv).state.noTaskComponent =
      none ∧
    ((emptyLoadingBoard.clearBoard true).renderContainer sampleEnv).state.log =
      [.remove .loading,
        .remove (.board []),
        .render (.board []) .boardContainer .afterBegin,
        .render .eventsList .bodyContainer .beforeEnd,
        .render .loading .bodyContainer .afterBegin] := by
  decide

end BigTrip
